import Mathlib

/-!
Verification model of the persistence/hydration subsystem of the `igris`
state-container library.

The embedding covers, faithfully to the TypeScript source:
  - `shallowMerge` (src/utils/functions.ts), modelling JavaScript object
    spread semantics over association lists of fields;
  - `PersistHandler.processStoredData`, `PersistHandler.getItem`,
    `PersistHandler.hydrate`, `PersistHandler.setItem`
    (src/persistence/handler.ts), via an explicit world-state model with
    an event trace (reads, store sets, listener notifications,
    subscription installation, debounced write scheduling);
  - `createJSONStorage` (src/utils/functions.ts): the JSON storage
    adapter's `getItem` / `removeItem`, with the sync/async shape of a
    result made explicit;
  - `setupHydrator` (src/persistence/hydration.tsx): the hydration
    coordinator's skip/collect/`Promise.all` behaviour, with promise
    resolution times made explicit;
  - the `Hydrator` gate (src/persistence/hydration.tsx): its
    `promiseRef` / `isHydrated` refs as a small state machine driven by
    snapshot and settle events.
-/

/-- A JavaScript/JSON value, as stored and merged by the library. -/
inductive JVal where
  | null : JVal
  | bool (b : Bool) : JVal
  | num (n : Int) : JVal
  | str (s : String) : JVal
  | obj (fields : List (String × JVal)) : JVal

/-- First-match field lookup on a JS object's property list. -/
def getField : List (String × JVal) → String → Option JVal
  | [], _ => none
  | (k', v) :: rest, k => if k' = k then some v else getField rest k

/-- Index-keyed fields produced by spreading a string (`\x7b..."ab"\x7d`
gives `\x7b"0":"a","1":"b"\x7d`). -/
def strIndexFields (s : String) : List (String × JVal) :=
  s.toList.enum.map (fun p => (toString p.1, JVal.str (String.singleton p.2)))

/-- The own enumerable fields contributed by spreading a value into an
object literal: objects give their fields, strings their indexed
characters, all other primitives nothing. -/
def spreadFields : JVal → List (String × JVal)
  | .obj fs => fs
  | .str s => strIndexFields s
  | _ => []

/-- Spread `\x7b...a, ...b\x7d` on field lists: `a`'s keys keep their position but
take `b`'s value when `b` also has the key; `b`'s remaining keys follow. -/
def jsSpread (a b : List (String × JVal)) : List (String × JVal) :=
  a.map (fun p => (p.1, (getField b p.1).getD p.2)) ++
    b.filter (fun p => (getField a p.1).isNone)

/-- Function `shallowMerge` from src/utils/functions.ts:
`objects.reduce((prev, cur) => (\x7b...prev, ...cur\x7d), \x7b\x7d)`. -/
def shallowMergeList (objects : List JVal) : JVal :=
  .obj (objects.foldl (fun prev cur => jsSpread prev (spreadFields cur)) [])

/-- Binary use of `shallowMerge`, as invoked by `processStoredData`. -/
def shallowMerge (a b : JVal) : JVal := shallowMergeList [a, b]

/-- The stored record shape `\x7b value, version \x7d`; an absent `version`
property is JavaScript `undefined`, modelled as `none`. -/
structure StoredRecord where
  value : JVal
  version : Option Nat

/-- The resolved persistence configuration of a `PersistHandler`, after the
constructor has applied the defaults (`debounceTime: 100`,
`partial: (data) => data`, `skipHydrate: false`).  The `partial`
projection is called `partialFn` here. -/
structure PersistConfig where
  debounceTime : Nat
  partialFn : JVal → JVal
  skipHydrate : Bool
  version : Option Nat
  migrate : Option (JVal → Option Nat → JVal)
  merge : Option (JVal → JVal → JVal)

/-- Method `PersistHandler.processStoredData` (src/persistence/handler.ts): a
`null` record yields the container's current state; otherwise the value is
migrated when the configured version differs from the stored one and a
migrate function exists, then merged into the current state with the
configured merge function, defaulting to `shallowMerge`. -/
def processStoredData (cfg : PersistConfig) (currentState : JVal)
    (data : Option StoredRecord) : JVal :=
  match data with
  | none => currentState
  | some d =>
    let processedData :=
      match cfg.migrate with
      | some m => if cfg.version ≠ d.version then m d.value d.version else d.value
      | none => d.value
    (cfg.merge.getD shallowMerge) currentState processedData

/-- A JavaScript call result that is either a plain synchronous value or a
promise eventually holding the value. -/
inductive JSRes (α : Type) where
  | sync (a : α) : JSRes α
  | promise (a : α) : JSRes α

/-- Function `isPromise` from src/utils/functions.ts. -/
def isPromise {α : Type} : JSRes α → Bool
  | .sync _ => false
  | .promise _ => true

/-- A raw key/value storage backend as handed to `createJSONStorage`:
string-valued reads and shape-preserving removes, each either synchronous
or promise-returning. -/
structure RawBackend where
  getItemRaw : String → JSRes (Option String)
  removeItemRaw : String → JSRes Unit

/-- Helper `parseJSON` inside `createJSONStorage`: `null` input stays `null`, and
a parse failure of the host's `JSON.parse` (given here as the abstract
`parse` primitive) is swallowed into `null`. -/
def parseJSON (parse : String → Option JVal) : Option String → Option JVal
  | none => none
  | some s => parse s

/-- Adapter method `createJSONStorage(...).getItem`: read the raw string, then parse —
after the read resolves when the backend is asynchronous, synchronously
end-to-end otherwise. -/
def cjsGetItem (parse : String → Option JVal) (b : RawBackend)
    (key : String) : JSRes (Option JVal) :=
  match b.getItemRaw key with
  | .sync s => .sync (parseJSON parse s)
  | .promise s => .promise (parseJSON parse s)

/-- Adapter method `createJSONStorage(...).removeItem`: an `async` arrow function that
calls the backend and awaits the result when it is a promise.  Being
`async`, its own result is always a promise. -/
def cjsRemoveItem (b : RawBackend) (key : String) : JSRes Unit :=
  .promise (match b.removeItemRaw key with
    | .sync u => u
    | .promise u => u)

/-- The record `PersistHandler.setItem` persists when its debounce timer
fires: `\x7b value: config.partial(data), version: config.version \x7d`. -/
def mkWriteRecord (cfg : PersistConfig) (data : JVal) : StoredRecord :=
  ⟨cfg.partialFn data, cfg.version⟩

/-- The write side of one handler: at most one pending debounced write
(its fire deadline and the data captured for it), plus the log of records
that have actually reached the storage backend. -/
structure WriteState where
  pendingWrite : Option (Nat × JVal)
  writes : List StoredRecord

/-- The event loop firing the pending debounce timer at time `now` when
its deadline has been reached: the record is built from the captured data
and sent to the backend. -/
def fireIfDue (cfg : PersistConfig) (now : Nat) (st : WriteState) : WriteState :=
  match st.pendingWrite with
  | some (deadline, data) =>
    if deadline ≤ now then
      ⟨none, st.writes ++ [mkWriteRecord cfg data]⟩
    else st
  | none => st

/-- Method `PersistHandler.setItem(data)` called at time `now`: any timer already
due has fired beforehand (event-loop order); then `clearTimeout` drops the
pending write, and `setTimeout` schedules a fresh one `debounceTime`
milliseconds later carrying `data`. -/
def setItemAt (cfg : PersistConfig) (now : Nat) (st : WriteState)
    (data : JVal) : WriteState :=
  let st := fireIfDue cfg now st
  ⟨some (now + cfg.debounceTime, data), st.writes⟩

/-- A sequence of `setItem` calls, each tagged with its call time. -/
def runCalls (cfg : PersistConfig) (st : WriteState)
    (calls : List (Nat × JVal)) : WriteState :=
  calls.foldl (fun st c => setItemAt cfg c.1 st c.2) st

/-- Let the event loop run to quiescence: whatever debounced write is
still pending eventually fires. -/
def flushAll (cfg : PersistConfig) (st : WriteState) : List StoredRecord :=
  match st.pendingWrite with
  | some (_, data) => st.writes ++ [mkWriteRecord cfg data]
  | none => st.writes

/-- Observable events of one handler's hydration lifecycle, in execution
order. -/
inductive Evt where
  | readIssued : Evt
  | storeSetEv (v : JVal) : Evt
  | notifyEv (listener : Nat) (v : JVal) : Evt
  | subscribedEv : Evt
  | scheduleWriteEv (v : JVal) : Evt

/-- The wait-handle `hydrate()` returns: `undefined` on the synchronous
path, or an identified promise on the asynchronous one. -/
inductive HResult where
  | syncDone : HResult
  | asyncPromise (id : Nat) : HResult

/-- What `storage.getItem(key)` yields for this handler's key: a
synchronous parsed record (or none), a promise of one, or a promise that
rejects. -/
inductive ReadResult where
  | syncVal (d : Option StoredRecord) : ReadResult
  | asyncVal (d : Option StoredRecord) : ReadResult
  | asyncErr : ReadResult

/-- An asynchronous `PersistHandler.getItem` still in flight: either the
backend data awaiting processing, or a rejected read (whose `catch`
resolves it to `null`). -/
inductive PendingRead where
  | withData (d : Option StoredRecord) : PendingRead
  | failed : PendingRead

/-- The world one `PersistHandler` and its `IgrisMaster` container live
in: backend behaviour, container state and listeners, the handler's
memoised `hydrate`, any in-flight read, the debounce slot, and the trace
of observable events. -/
structure World where
  backend : ReadResult
  storeState : JVal
  extListeners : List Nat
  handlerSubscribed : Bool
  readCount : Nat
  cachedHydrate : Option HResult
  pendingHydration : Option PendingRead
  nextPromiseId : Nat
  pendingWriteData : Option JVal
  trace : List Evt

/-- Method `PersistHandler.subscribeStore`: drop any previous subscription and
install the listener that forwards every container change to `setItem`.
At most one handler subscription is ever active. -/
def subscribeStore (w : World) : World :=
  { w with handlerSubscribed := true, trace := w.trace ++ [Evt.subscribedEv] }

/-- The handler's subscribed listener calling `setItem(data)`:
`clearTimeout` then `setTimeout` leaves exactly the new data in the
single debounce slot. -/
def handlerSetItem (w : World) (data : JVal) : World :=
  { w with pendingWriteData := some data,
           trace := w.trace ++ [Evt.scheduleWriteEv data] }

/-- Method `IgrisMaster.set` (src/core/master.ts): replace `currentState`, then
synchronously run every subscribed listener on the new state — the
external listeners, and the handler's write-scheduling listener when it
is subscribed. -/
def storeSet (w : World) (v : JVal) : World :=
  let w := { w with storeState := v,
                    trace := w.trace ++ [Evt.storeSetEv v]
                      ++ w.extListeners.map (fun l => Evt.notifyEv l v) }
  if w.handlerSubscribed then handlerSetItem w v else w

/-- Method `PersistHandler.hydrate` (src/persistence/handler.ts).  The source
memoises by overwriting `this.hydrate` with `() => hydratePromise` or
`() => undefined`; the model keeps that memo in `cachedHydrate` and
returns it without touching storage when present.  A first call issues
exactly one `storage.getItem` read; on a synchronous result it processes
and `set`s immediately, on an asynchronous one it leaves the read in
flight; either way it then installs the store subscription and returns
the memoised wait-handle. -/
def hydrate (cfg : PersistConfig) (w : World) : HResult × World :=
  match w.cachedHydrate with
  | some r => (r, w)
  | none =>
    let w := { w with readCount := w.readCount + 1,
                      trace := w.trace ++ [Evt.readIssued] }
    match w.backend with
    | .syncVal d =>
      let v := processStoredData cfg w.storeState d
      let w := storeSet w v
      let w := subscribeStore { w with cachedHydrate := some .syncDone }
      (.syncDone, w)
    | .asyncVal d =>
      let pid := w.nextPromiseId
      let w := subscribeStore
        { w with nextPromiseId := pid + 1,
                 pendingHydration := some (.withData d),
                 cachedHydrate := some (.asyncPromise pid) }
      (.asyncPromise pid, w)
    | .asyncErr =>
      let pid := w.nextPromiseId
      let w := subscribeStore
        { w with nextPromiseId := pid + 1,
                 pendingHydration := some .failed,
                 cachedHydrate := some (.asyncPromise pid) }
      (.asyncPromise pid, w)

/-- Resolution of an in-flight asynchronous read: `getItem`'s async body
processes the awaited data against the container state current at that
moment (its `catch` turns a rejection into `null`), and `hydrate`'s async
body pushes the resolved value into the container via `set`.  The
hydration promise itself never rejects. -/
def resolveHydration (cfg : PersistConfig) (w : World) : World :=
  match w.pendingHydration with
  | none => w
  | some (.withData d) =>
    storeSet { w with pendingHydration := none }
      (processStoredData cfg w.storeState d)
  | some .failed =>
    storeSet { w with pendingHydration := none } JVal.null

/-- One entry of the store list handed to `setupHydrator`: `none` when the
container has no `persist` handler, otherwise the wait-handle its
`hydrate()` call produces — `none` for a synchronous (`undefined`)
result, or the event-loop step at which the hydration promise resolves. -/
abbrev StoreEntry : Type := Option (Option Nat)

/-- The promise results the `for...of` loop of `setupHydrator`
(src/persistence/hydration.tsx) accumulates in `hydrationPromises`:
containers without a handler are skipped by `continue`, and only results
that are `instanceof Promise` are pushed. -/
def hydrationPromises (stores : List StoreEntry) : List Nat :=
  stores.foldl (fun acc s =>
    match s with
    | none => acc
    | some none => acc
    | some (some t) => acc ++ [t]) []

/-- Join `Promise.all`: the combined promise resolves at the latest of its
members' resolution steps. -/
def promiseAllAt (ps : List Nat) : Nat := ps.foldl max 0

/-- The hydrator function returned by `setupHydrator`: `undefined`
(`none`) when no asynchronous work was collected, otherwise the
resolution step of `Promise.all(hydrationPromises)`. -/
def setupHydratorResult (stores : List StoreEntry) : Option Nat :=
  let ps := hydrationPromises stores
  if ps.isEmpty then none else some (promiseAllAt ps)

/-- The mutable refs of one mounted `Hydrator` component
(src/persistence/hydration.tsx): `promiseRef.current` starts `undefined`
(`none`), and is set once to the hydration handle — `some none` models
the `?? null` collapse of a non-promise result, `some (some id)` a cached
promise; `isHydrated` is the gate flag. -/
structure GateState where
  promiseRef : Option (Option Nat)
  isHydrated : Bool

/-- A freshly mounted gate. -/
def initialGate : GateState := ⟨none, false⟩

/-- Callback `getSnapshot`: on the first evaluation the hydration attempt's result
`hr` is cached into `promiseRef` (`undefined` collapsing to `null`), and
when it is not a promise `isHydrated` is immediately set; every
evaluation returns the current flag. -/
def getSnapshot (hr : Option Nat) (g : GateState) : Bool × GateState :=
  match g.promiseRef with
  | some _ => (g.isHydrated, g)
  | none =>
    let g' : GateState := ⟨some hr, g.isHydrated || hr.isNone⟩
    (g'.isHydrated, g')

/-- The settle callback registered by `subscribe`
(`Promise.resolve(promiseRef.current).then(...)`): once the cached handle
settles, `isHydrated` is set and the store-change notification fires. -/
def settleStep (g : GateState) : GateState := { g with isHydrated := true }

/-- Events driving one gate instance: a re-render reading the snapshot, or
the settle callback firing. -/
inductive GEvent where
  | snapshot : GEvent
  | settle : GEvent

/-- One gate transition. -/
def gateStep (hr : Option Nat) (g : GateState) : GEvent → GateState
  | .snapshot => (getSnapshot hr g).2
  | .settle => settleStep g

/-- A gate run over a sequence of events. -/
def runGate (hr : Option Nat) (g : GateState) (evts : List GEvent) : GateState :=
  evts.foldl (gateStep hr) g

/-- What the gate renders for a given snapshot value: the loading
placeholder while closed, the children once open. -/
def gateRendersChildren (snapshot : Bool) : Bool := snapshot

section WorldLemmas

variable (w : World) (v : JVal)

@[simp] lemma subscribeStore_backend : (subscribeStore w).backend = w.backend := rfl
@[simp] lemma subscribeStore_storeState : (subscribeStore w).storeState = w.storeState := rfl
@[simp] lemma subscribeStore_extListeners : (subscribeStore w).extListeners = w.extListeners := rfl
@[simp] lemma subscribeStore_handlerSubscribed : (subscribeStore w).handlerSubscribed = true := rfl
@[simp] lemma subscribeStore_readCount : (subscribeStore w).readCount = w.readCount := rfl
@[simp] lemma subscribeStore_cachedHydrate : (subscribeStore w).cachedHydrate = w.cachedHydrate := rfl
@[simp] lemma subscribeStore_pendingHydration : (subscribeStore w).pendingHydration = w.pendingHydration := rfl
@[simp] lemma subscribeStore_nextPromiseId : (subscribeStore w).nextPromiseId = w.nextPromiseId := rfl
@[simp] lemma subscribeStore_pendingWriteData : (subscribeStore w).pendingWriteData = w.pendingWriteData := rfl
@[simp] lemma subscribeStore_trace : (subscribeStore w).trace = w.trace ++ [Evt.subscribedEv] := rfl

@[simp] lemma handlerSetItem_storeState (d : JVal) : (handlerSetItem w d).storeState = w.storeState := rfl
@[simp] lemma handlerSetItem_cachedHydrate (d : JVal) : (handlerSetItem w d).cachedHydrate = w.cachedHydrate := rfl

@[simp] lemma storeSet_backend : (storeSet w v).backend = w.backend := by
  unfold storeSet handlerSetItem; dsimp only; split <;> rfl
@[simp] lemma storeSet_storeState : (storeSet w v).storeState = v := by
  unfold storeSet handlerSetItem; dsimp only; split <;> rfl
@[simp] lemma storeSet_extListeners : (storeSet w v).extListeners = w.extListeners := by
  unfold storeSet handlerSetItem; dsimp only; split <;> rfl
@[simp] lemma storeSet_handlerSubscribed : (storeSet w v).handlerSubscribed = w.handlerSubscribed := by
  unfold storeSet handlerSetItem; dsimp only; split <;> rfl
@[simp] lemma storeSet_readCount : (storeSet w v).readCount = w.readCount := by
  unfold storeSet handlerSetItem; dsimp only; split <;> rfl
@[simp] lemma storeSet_cachedHydrate : (storeSet w v).cachedHydrate = w.cachedHydrate := by
  unfold storeSet handlerSetItem; dsimp only; split <;> rfl
@[simp] lemma storeSet_pendingHydration : (storeSet w v).pendingHydration = w.pendingHydration := by
  unfold storeSet handlerSetItem; dsimp only; split <;> rfl
@[simp] lemma storeSet_nextPromiseId : (storeSet w v).nextPromiseId = w.nextPromiseId := by
  unfold storeSet handlerSetItem; dsimp only; split <;> rfl
@[simp] lemma storeSet_trace : (storeSet w v).trace =
    w.trace ++ [Evt.storeSetEv v] ++ w.extListeners.map (fun l => Evt.notifyEv l v)
      ++ (if w.handlerSubscribed then [Evt.scheduleWriteEv v] else []) := by
  unfold storeSet handlerSetItem; dsimp only; split <;> simp_all

end WorldLemmas

/-- A handler whose `hydrate` has been memoised returns the memo at once,
leaving the world untouched. -/
lemma hydrate_of_cached (cfg : PersistConfig) (w : World) (r : HResult)
    (h : w.cachedHydrate = some r) : hydrate cfg w = (r, w) := by
  unfold hydrate; rw [h]

/-- A first `hydrate` call stores its own result as the memo. -/
lemma hydrate_memoises (cfg : PersistConfig) (w : World)
    (h : w.cachedHydrate = none) :
    (hydrate cfg w).2.cachedHydrate = some (hydrate cfg w).1 := by
  unfold hydrate; rw [h]
  cases hb : w.backend <;> simp

/-- A first `hydrate` call performs exactly one backend read. -/
lemma hydrate_readCount (cfg : PersistConfig) (w : World)
    (h : w.cachedHydrate = none) :
    (hydrate cfg w).2.readCount = w.readCount + 1 := by
  unfold hydrate; rw [h]
  cases hb : w.backend <;> simp

/-- C1: `hydrate()` is idempotent: after the first call the world is a
fixed point of further calls (so no further backend read and no further
processing happens), every later call returns the first call's
wait-handle, the first call performs exactly one backend read, and the
handle is `undefined` on the synchronous path and the one freshly
allocated promise on the asynchronous paths. -/
theorem hydrate_idempotent_single_read (cfg : PersistConfig) (w : World)
    (h : w.cachedHydrate = none) :
    hydrate cfg (hydrate cfg w).2 = ((hydrate cfg w).1, (hydrate cfg w).2)
    ∧ (∀ n : Nat, (fun x => (hydrate cfg x).2)^[n] (hydrate cfg w).2 = (hydrate cfg w).2)
    ∧ (hydrate cfg w).2.readCount = w.readCount + 1
    ∧ (∀ d, w.backend = ReadResult.syncVal d → (hydrate cfg w).1 = HResult.syncDone)
    ∧ (∀ d, w.backend = ReadResult.asyncVal d →
        (hydrate cfg w).1 = HResult.asyncPromise w.nextPromiseId)
    ∧ (w.backend = ReadResult.asyncErr →
        (hydrate cfg w).1 = HResult.asyncPromise w.nextPromiseId) := by
  have hfix : hydrate cfg (hydrate cfg w).2 = ((hydrate cfg w).1, (hydrate cfg w).2) :=
    hydrate_of_cached cfg _ _ (hydrate_memoises cfg w h)
  refine ⟨hfix, ?_, hydrate_readCount cfg w h, ?_, ?_, ?_⟩
  · intro n
    induction n with
    | zero => rfl
    | succ n ih =>
      rw [Function.iterate_succ_apply', ih]
      simpa using congrArg Prod.snd hfix
  · intro d hd; simp [hydrate, h, hd]
  · intro d hd; simp [hydrate, h, hd]
  · intro hd; simp [hydrate, h, hd]

/-- A concrete configuration used by the witnesses: debounce 100 ms,
identity projection, version 1, no migrate, default merge. -/
def cfgW : PersistConfig :=
  ⟨100, fun d => d, false, some 1, none, none⟩

/-- A fresh world over a synchronous backend holding no record, state
`\x7b count: 0 \x7d`, one external listener. -/
def wSyncNone : World :=
  ⟨ReadResult.syncVal none, JVal.obj [("count", JVal.num 0)], [7],
    false, 0, none, none, 0, none, []⟩

theorem hydrate_idempotent_single_read_witness :
    wSyncNone.cachedHydrate = none
    ∧ hydrate cfgW (hydrate cfgW wSyncNone).2
        = ((hydrate cfgW wSyncNone).1, (hydrate cfgW wSyncNone).2)
    ∧ (hydrate cfgW wSyncNone).2.readCount = wSyncNone.readCount + 1 :=
  ⟨rfl, (hydrate_idempotent_single_read cfgW wSyncNone rfl).1,
    (hydrate_idempotent_single_read cfgW wSyncNone rfl).2.2.1⟩

/-- While every next call comes strictly less than `debounceTime` after
the previous one, the pending timer never fires: each call just replaces
the slot, and the slot ends up holding the last call. -/
lemma runCalls_chain (cfg : PersistConfig) :
    ∀ (calls : List (Nat × JVal)) (t0 : Nat) (d0 : JVal) (ws : List StoredRecord),
    List.Chain' (fun p q : Nat × JVal => q.1 < p.1 + cfg.debounceTime)
      ((t0, d0) :: calls) →
    runCalls cfg ⟨some (t0 + cfg.debounceTime, d0), ws⟩ calls =
      ⟨some ((calls.getLastD (t0, d0)).1 + cfg.debounceTime,
             (calls.getLastD (t0, d0)).2), ws⟩ := by
  intro calls
  induction calls with
  | nil => intro t0 d0 ws _; rfl
  | cons c rest ih =>
    intro t0 d0 ws hchain
    obtain ⟨t1, d1⟩ := c
    have hlt : t1 < t0 + cfg.debounceTime := (List.chain'_cons.mp hchain).1
    have htail : List.Chain' (fun p q : Nat × JVal => q.1 < p.1 + cfg.debounceTime)
        ((t1, d1) :: rest) := (List.chain'_cons.mp hchain).2
    have hstep : setItemAt cfg t1 ⟨some (t0 + cfg.debounceTime, d0), ws⟩ d1 =
        ⟨some (t1 + cfg.debounceTime, d1), ws⟩ := by
      unfold setItemAt fireIfDue
      simp [Nat.not_le.mpr hlt]
    show runCalls cfg (setItemAt cfg t1 ⟨some (t0 + cfg.debounceTime, d0), ws⟩ d1) rest = _
    rw [hstep, ih t1 d1 ws htail, List.getLastD_cons]

/-- C2: for a burst of `setItem` calls whose consecutive gaps are all
strictly below `debounceTime`, no write reaches the backend during the
burst, and letting the timer run afterwards delivers exactly one write,
carrying `\x7b value: partial(lastData), version: config.version \x7d` built
from the last call of the burst. -/
theorem setItem_debounce_last_write_wins (cfg : PersistConfig)
    (t0 : Nat) (d0 : JVal) (rest : List (Nat × JVal))
    (hchain : List.Chain' (fun p q : Nat × JVal => q.1 < p.1 + cfg.debounceTime)
      ((t0, d0) :: rest)) :
    (runCalls cfg ⟨none, []⟩ ((t0, d0) :: rest)).writes = []
    ∧ flushAll cfg (runCalls cfg ⟨none, []⟩ ((t0, d0) :: rest))
        = [mkWriteRecord cfg (rest.getLastD (t0, d0)).2] := by
  have hfirst : setItemAt cfg t0 ⟨none, []⟩ d0 =
      ⟨some (t0 + cfg.debounceTime, d0), []⟩ := rfl
  have hrun : runCalls cfg ⟨none, []⟩ ((t0, d0) :: rest) =
      ⟨some ((rest.getLastD (t0, d0)).1 + cfg.debounceTime,
             (rest.getLastD (t0, d0)).2), []⟩ := by
    show runCalls cfg (setItemAt cfg t0 ⟨none, []⟩ d0) rest = _
    rw [hfirst, runCalls_chain cfg rest t0 d0 [] hchain]
  rw [hrun]
  exact ⟨rfl, rfl⟩

theorem setItem_debounce_last_write_wins_witness :
    List.Chain' (fun p q : Nat × JVal => q.1 < p.1 + cfgW.debounceTime)
      [(0, JVal.num 1), (50, JVal.num 2), (90, JVal.num 3)]
    ∧ (runCalls cfgW ⟨none, []⟩
        [(0, JVal.num 1), (50, JVal.num 2), (90, JVal.num 3)]).writes = []
    ∧ flushAll cfgW (runCalls cfgW ⟨none, []⟩
        [(0, JVal.num 1), (50, JVal.num 2), (90, JVal.num 3)])
        = [mkWriteRecord cfgW (JVal.num 3)] := by
  have hchain : List.Chain' (fun p q : Nat × JVal => q.1 < p.1 + cfgW.debounceTime)
      [(0, JVal.num 1), (50, JVal.num 2), (90, JVal.num 3)] := by
    refine List.chain'_cons.mpr ⟨?_, List.chain'_cons.mpr ⟨?_, ?_⟩⟩ <;> simp [cfgW]
  have h := setItem_debounce_last_write_wins cfgW 0 (JVal.num 1)
    [(50, JVal.num 2), (90, JVal.num 3)] hchain
  exact ⟨hchain, h.1, h.2⟩

/-- First-some choice on optional field values. -/
def orFirst : Option JVal → Option JVal → Option JVal
  | some v, _ => some v
  | none, b => b

lemma getField_append (xs ys : List (String × JVal)) (k : String) :
    getField (xs ++ ys) k = orFirst (getField xs k) (getField ys k) := by
  induction xs with
  | nil => rfl
  | cons p rest ih =>
    obtain ⟨k', v⟩ := p
    by_cases hk : k' = k
    · simp [getField, hk, orFirst]
    · simpa [getField, hk] using ih

lemma getField_map_override (a b : List (String × JVal)) (k : String) :
    getField (a.map (fun p => (p.1, (getField b p.1).getD p.2))) k
      = (getField a k).map (fun v => (getField b k).getD v) := by
  induction a with
  | nil => rfl
  | cons p rest ih =>
    obtain ⟨k', v⟩ := p
    by_cases hk : k' = k
    · subst hk; simp [getField]
    · simpa [getField, hk] using ih

lemma getField_filter_keep (a b : List (String × JVal)) (k : String)
    (h : getField a k = none) :
    getField (b.filter (fun p => (getField a p.1).isNone)) k = getField b k := by
  induction b with
  | nil => rfl
  | cons p rest ih =>
    obtain ⟨k', v⟩ := p
    by_cases hk : k' = k
    · subst hk; simp [getField, h, List.filter_cons]
    · by_cases hkeep : (getField a k').isNone
      · simpa [List.filter_cons, hkeep, getField, hk] using ih
      · simpa [List.filter_cons, hkeep, getField, hk] using ih

lemma getField_filter_drop (a b : List (String × JVal)) (k : String)
    (h : (getField a k).isSome) :
    getField (b.filter (fun p => (getField a p.1).isNone)) k = none := by
  induction b with
  | nil => rfl
  | cons p rest ih =>
    obtain ⟨k', v⟩ := p
    by_cases hk : k' = k
    · subst hk
      have : ¬ (getField a k').isNone := by
        simp only [Option.isNone_iff_eq_none]
        intro hn; rw [hn] at h; simp at h
      simpa [List.filter_cons, this] using ih
    · by_cases hkeep : (getField a k').isNone
      · simpa [List.filter_cons, hkeep, getField, hk] using ih
      · simpa [List.filter_cons, hkeep, getField, hk] using ih

/-- Field lookup after a spread: the right operand's binding wins, the
left operand's is the fallback. -/
lemma getField_jsSpread (a b : List (String × JVal)) (k : String) :
    getField (jsSpread a b) k = orFirst (getField b k) (getField a k) := by
  unfold jsSpread
  rw [getField_append, getField_map_override]
  cases ha : getField a k with
  | none =>
    rw [getField_filter_keep a b k ha]
    cases getField b k <;> simp [orFirst]
  | some v =>
    have : (getField a k).isSome := by rw [ha]; rfl
    rw [getField_filter_drop a b k this]
    cases getField b k <;> simp [orFirst]

lemma jsSpread_nil (x : List (String × JVal)) : jsSpread [] x = x := by
  unfold jsSpread
  simp [getField]

/-- The default merge is shallow: a key of the merged object resolves to
the stored (second) object's binding when present, else to the current
(first) object's binding. -/
lemma getField_shallowMerge (a b : JVal) (k : String) :
    getField (spreadFields (shallowMerge a b)) k
      = orFirst (getField (spreadFields b) k) (getField (spreadFields a) k) := by
  show getField (jsSpread (jsSpread [] (spreadFields a)) (spreadFields b)) k = _
  rw [jsSpread_nil, getField_jsSpread]

/-- The container state once a hydration has fully completed (its promise
resolved, when there is one). -/
def hydratedState (cfg : PersistConfig) (w : World) : JVal :=
  (resolveHydration cfg (hydrate cfg w).2).storeState

lemma resolveHydration_of_none (cfg : PersistConfig) (w : World)
    (h : w.pendingHydration = none) : resolveHydration cfg w = w := by
  unfold resolveHydration; rw [h]

lemma hydratedState_eq (cfg : PersistConfig) (w : World) (d : Option StoredRecord)
    (hc : w.cachedHydrate = none) (hp : w.pendingHydration = none)
    (hb : w.backend = ReadResult.syncVal d ∨ w.backend = ReadResult.asyncVal d) :
    hydratedState cfg w = processStoredData cfg w.storeState d := by
  unfold hydratedState
  rcases hb with hb | hb
  · have hpost : (hydrate cfg w).2.pendingHydration = none := by
      simp [hydrate, hc, hb, hp]
    rw [resolveHydration_of_none cfg _ hpost]
    simp [hydrate, hc, hb]
  · have hpost : (hydrate cfg w).2.pendingHydration = some (PendingRead.withData d) := by
      simp [hydrate, hc, hb]
    have hstate : (hydrate cfg w).2.storeState = w.storeState := by
      simp [hydrate, hc, hb]
    unfold resolveHydration
    rw [hpost]
    simp [hstate]

lemma hydratedState_of_err (cfg : PersistConfig) (w : World)
    (hc : w.cachedHydrate = none) (hb : w.backend = ReadResult.asyncErr) :
    hydratedState cfg w = JVal.null := by
  unfold hydratedState
  have hpost : (hydrate cfg w).2.pendingHydration = some PendingRead.failed := by
    simp [hydrate, hc, hb]
  unfold resolveHydration
  rw [hpost]
  simp

/-- C3: for a stored record whose version differs from the configured
one, hydration merges `migrate(record.value, record.version)` into the
current state when a migrate function is configured, and `record.value`
as-is when none is; the default merge is shallow, stored keys overriding
current keys at depth 1. -/
theorem hydrate_version_migrate_merge (cfg : PersistConfig) (w : World)
    (rec : StoredRecord)
    (hc : w.cachedHydrate = none) (hp : w.pendingHydration = none)
    (hb : w.backend = ReadResult.syncVal (some rec)
        ∨ w.backend = ReadResult.asyncVal (some rec)) :
    (∀ m, cfg.migrate = some m → cfg.version ≠ rec.version →
      hydratedState cfg w
        = (cfg.merge.getD shallowMerge) w.storeState (m rec.value rec.version))
    ∧ (cfg.migrate = none →
      hydratedState cfg w = (cfg.merge.getD shallowMerge) w.storeState rec.value)
    ∧ (∀ a b k, getField (spreadFields (shallowMerge a b)) k
        = orFirst (getField (spreadFields b) k) (getField (spreadFields a) k)) := by
  have h := hydratedState_eq cfg w (some rec) hc hp hb
  refine ⟨?_, ?_, fun a b k => getField_shallowMerge a b k⟩
  · intro m hm hne
    rw [h]; simp [processStoredData, hm, hne]
  · intro hm
    rw [h]; simp [processStoredData, hm]

/-- A migrate function wrapping the stored value, used by the witness. -/
def migFn : JVal → Option Nat → JVal := fun v _ => JVal.obj [("migrated", v)]

/-- A configuration with version 2 and a migrate function. -/
def cfgM : PersistConfig := ⟨100, fun d => d, false, some 2, some migFn, none⟩

/-- A stored record at version 1. -/
def recM : StoredRecord := ⟨JVal.obj [("a", JVal.num 5)], some 1⟩

/-- A fresh world whose synchronous backend holds `recM`. -/
def wM : World :=
  ⟨ReadResult.syncVal (some recM),
    JVal.obj [("a", JVal.num 0), ("b", JVal.num 1)],
    [], false, 0, none, none, 0, none, []⟩

/-- A stored record with no version property. -/
def recNM : StoredRecord := ⟨JVal.obj [("a", JVal.num 5)], none⟩

/-- A fresh world whose synchronous backend holds `recNM`. -/
def wNM : World :=
  ⟨ReadResult.syncVal (some recNM),
    JVal.obj [("a", JVal.num 0), ("b", JVal.num 1)],
    [], false, 0, none, none, 0, none, []⟩

theorem hydrate_version_migrate_merge_witness :
    cfgM.migrate = some migFn
    ∧ cfgM.version ≠ recM.version
    ∧ hydratedState cfgM wM
        = shallowMerge wM.storeState (migFn recM.value recM.version)
    ∧ cfgW.migrate = none
    ∧ hydratedState cfgW wNM = shallowMerge wNM.storeState recNM.value
    ∧ getField (spreadFields (shallowMerge wNM.storeState recNM.value)) "a"
        = some (JVal.num 5) := by
  have hmig : cfgM.version ≠ recM.version := by simp [cfgM, recM]
  refine ⟨rfl, hmig, ?_, rfl, ?_, ?_⟩
  · exact (hydrate_version_migrate_merge cfgM wM recM rfl rfl (Or.inl rfl)).1
      migFn rfl hmig
  · exact (hydrate_version_migrate_merge cfgW wNM recNM rfl rfl (Or.inl rfl)).2.1 rfl
  · have h := (hydrate_version_migrate_merge cfgW wNM recNM rfl rfl
      (Or.inl rfl)).2.2 wNM.storeState recNM.value "a"
    rw [h]; rfl

/-- C4: hydrating when the backend holds no stored record (`getItem`
yields `null`) leaves the container's state equal to its pre-hydration
in-memory state, on the synchronous and the asynchronous read path
alike. -/
theorem hydrate_no_record_identity (cfg : PersistConfig) (w : World)
    (hc : w.cachedHydrate = none) (hp : w.pendingHydration = none)
    (hb : w.backend = ReadResult.syncVal none
        ∨ w.backend = ReadResult.asyncVal none) :
    hydratedState cfg w = w.storeState := by
  rw [hydratedState_eq cfg w none hc hp hb]
  rfl

/-- A fresh world over an asynchronous backend holding no record. -/
def wAsyncNone : World :=
  ⟨ReadResult.asyncVal none, JVal.obj [("a", JVal.num 1)], [],
    false, 0, none, none, 0, none, []⟩

theorem hydrate_no_record_identity_witness :
    hydratedState cfgW wSyncNone = wSyncNone.storeState
    ∧ hydratedState cfgW wAsyncNone = wAsyncNone.storeState :=
  ⟨hydrate_no_record_identity cfgW wSyncNone rfl rfl (Or.inl rfl),
    hydrate_no_record_identity cfgW wAsyncNone rfl rfl (Or.inr rfl)⟩

/-- C5 (counterexample to the claim as stated): on a rejected
asynchronous read the code does not fall back to the container's current
state — `getItem`'s catch resolves to `null` and `hydrate` pushes that
`null` into the container, clobbering the previous state. -/
def wErr : World :=
  ⟨ReadResult.asyncErr, JVal.obj [("count", JVal.num 0)], [],
    false, 0, none, none, 0, none, []⟩

theorem read_failure_counterexample :
    hydratedState cfgW wErr = JVal.null
    ∧ hydratedState cfgW wErr ≠ wErr.storeState := by
  have h0 : hydratedState cfgW wErr = JVal.null := rfl
  refine ⟨h0, ?_⟩
  rw [h0]
  intro h
  exact nomatch h

/-- C5 (amended): read-path failures are non-fatal and never propagate.
A stored string that fails JSON parsing is treated as no stored value
(the adapter yields a synchronous `null`), and hydrating against an
absent record leaves the container state unchanged.  A rejected
asynchronous backend read is also swallowed — the hydration handle is an
ordinary promise, not a rejection — but it resolves through `set(null)`:
the container's state becomes `null` rather than falling back to its
current state. -/
theorem read_failure_nonfatal (parse : String → Option JVal) (b : RawBackend)
    (key s : String) (cfg : PersistConfig) (w : World)
    (hraw : b.getItemRaw key = JSRes.sync (some s)) (hparse : parse s = none)
    (hc : w.cachedHydrate = none) (hp : w.pendingHydration = none) :
    cjsGetItem parse b key = JSRes.sync none
    ∧ (w.backend = ReadResult.syncVal none ∨ w.backend = ReadResult.asyncVal none →
        hydratedState cfg w = w.storeState)
    ∧ (w.backend = ReadResult.asyncErr →
        (hydrate cfg w).1 = HResult.asyncPromise w.nextPromiseId
        ∧ hydratedState cfg w = JVal.null) := by
  refine ⟨?_, ?_, ?_⟩
  · unfold cjsGetItem
    rw [hraw]
    simp [parseJSON, hparse]
  · intro hb
    rw [hydratedState_eq cfg w none hc hp hb]
    rfl
  · intro hb
    exact ⟨by simp [hydrate, hc, hb], hydratedState_of_err cfg w hc hb⟩

/-- A parse primitive on which every string fails, and a synchronous
backend holding a malformed stored string. -/
def parseNone : String → Option JVal := fun _ => none

/-- A synchronous raw backend whose stored string is not valid JSON. -/
def bBadJSON : RawBackend :=
  ⟨fun _ => JSRes.sync (some "not json"), fun _ => JSRes.sync ()⟩

theorem read_failure_nonfatal_witness :
    cjsGetItem parseNone bBadJSON "k" = JSRes.sync none
    ∧ hydratedState cfgW wSyncNone = wSyncNone.storeState
    ∧ (hydrate cfgW wErr).1 = HResult.asyncPromise wErr.nextPromiseId
    ∧ hydratedState cfgW wErr = JVal.null := by
  have h1 := read_failure_nonfatal parseNone bBadJSON "k" "not json" cfgW
    wSyncNone rfl rfl rfl rfl
  have h2 := read_failure_nonfatal parseNone bBadJSON "k" "not json" cfgW
    wErr rfl rfl rfl rfl
  exact ⟨h1.1, h1.2.1 (Or.inl rfl), (h2.2.2 rfl).1, (h2.2.2 rfl).2⟩

/-- Recognises the subscription-installation event. -/
def isSubscribedEv : Evt → Bool
  | .subscribedEv => true
  | _ => false

/-- Recognises a container `set` event. -/
def isStoreSetEv : Evt → Bool
  | .storeSetEv _ => true
  | _ => false

/-- A fresh world over an asynchronous backend holding a record, for the
ordering counterexample. -/
def wCEx : World :=
  ⟨ReadResult.asyncVal (some recM), JVal.obj [("count", JVal.num 0)], [],
    false, 0, none, none, 0, none, []⟩

/-- C8 (counterexample to the claim as stated): on the asynchronous path
the subscription event sits at index 1 of the trace, before the hydration
`set` at index 2 — the subscription is installed before the read result
has been pushed into the container, so the set does not happen-before
the subscription. -/
theorem subscription_order_counterexample :
    (resolveHydration cfgW (hydrate cfgW wCEx).2).trace.findIdx isSubscribedEv = 1
    ∧ (resolveHydration cfgW (hydrate cfgW wCEx).2).trace.findIdx isStoreSetEv = 2
    ∧ ¬ ((resolveHydration cfgW (hydrate cfgW wCEx).2).trace.findIdx isStoreSetEv
        < (resolveHydration cfgW (hydrate cfgW wCEx).2).trace.findIdx isSubscribedEv) := by
  have h1 : (resolveHydration cfgW (hydrate cfgW wCEx).2).trace.findIdx isSubscribedEv
      = 1 := rfl
  have h2 : (resolveHydration cfgW (hydrate cfgW wCEx).2).trace.findIdx isStoreSetEv
      = 2 := rfl
  refine ⟨h1, h2, ?_⟩
  rw [h1, h2]
  omega

/-- C8 (amended): on the synchronous path the hydration `set` does
precede the subscription; on the asynchronous path the subscription is
installed right after the read is issued — before the hydration `set`,
which only happens at promise resolution and, being delivered to the
already-subscribed handler, immediately schedules a debounced write. -/
theorem hydrate_subscription_order (cfg : PersistConfig) (w : World)
    (d : Option StoredRecord)
    (hc : w.cachedHydrate = none) (hp : w.pendingHydration = none)
    (ht : w.trace = []) (hs : w.handlerSubscribed = false) :
    (w.backend = ReadResult.syncVal d →
      (hydrate cfg w).2.trace
        = [Evt.readIssued, Evt.storeSetEv (processStoredData cfg w.storeState d)]
          ++ w.extListeners.map
              (fun l => Evt.notifyEv l (processStoredData cfg w.storeState d))
          ++ [Evt.subscribedEv])
    ∧ (w.backend = ReadResult.asyncVal d →
      (hydrate cfg w).2.trace = [Evt.readIssued, Evt.subscribedEv]
      ∧ (resolveHydration cfg (hydrate cfg w).2).trace
          = [Evt.readIssued, Evt.subscribedEv,
             Evt.storeSetEv (processStoredData cfg w.storeState d)]
            ++ w.extListeners.map
                (fun l => Evt.notifyEv l (processStoredData cfg w.storeState d))
            ++ [Evt.scheduleWriteEv (processStoredData cfg w.storeState d)]) := by
  constructor
  · intro hb
    simp [hydrate, hc, hb, ht, hs]
  · intro hb
    have hpost : (hydrate cfg w).2.trace = [Evt.readIssued, Evt.subscribedEv] := by
      simp [hydrate, hc, hb, ht]
    refine ⟨hpost, ?_⟩
    have hpend : (hydrate cfg w).2.pendingHydration
        = some (PendingRead.withData d) := by
      simp [hydrate, hc, hb]
    unfold resolveHydration
    rw [hpend]
    have hsub : (hydrate cfg w).2.handlerSubscribed = true := by
      simp [hydrate, hc, hb]
    have hstate : (hydrate cfg w).2.storeState = w.storeState := by
      simp [hydrate, hc, hb]
    have hext : (hydrate cfg w).2.extListeners = w.extListeners := by
      simp [hydrate, hc, hb]
    simp [hsub, hstate, hext, hpost]

theorem hydrate_subscription_order_witness :
    (hydrate cfgW wSyncNone).2.trace
      = [Evt.readIssued, Evt.storeSetEv wSyncNone.storeState]
        ++ wSyncNone.extListeners.map
            (fun l => Evt.notifyEv l wSyncNone.storeState)
        ++ [Evt.subscribedEv]
    ∧ (hydrate cfgW wCEx).2.trace = [Evt.readIssued, Evt.subscribedEv] := by
  have h1 := hydrate_subscription_order cfgW wSyncNone none rfl rfl rfl rfl
  have h2 := hydrate_subscription_order cfgW wCEx (some recM) rfl rfl rfl rfl
  exact ⟨h1.1 rfl, (h2.2 rfl).1⟩

/-- C10: every completed hydration — including a no-op one where the
backend held no record, in which case the processed value is the
unchanged current state — pushes the processed value into the container
via `set`, and that `set` notifies every listener already subscribed to
the container with that value. -/
theorem hydration_set_notifies (cfg : PersistConfig) (w : World)
    (d : Option StoredRecord)
    (hc : w.cachedHydrate = none) (hp : w.pendingHydration = none)
    (hb : w.backend = ReadResult.syncVal d ∨ w.backend = ReadResult.asyncVal d) :
    Evt.storeSetEv (processStoredData cfg w.storeState d)
        ∈ (resolveHydration cfg (hydrate cfg w).2).trace
    ∧ ∀ l ∈ w.extListeners,
        Evt.notifyEv l (processStoredData cfg w.storeState d)
          ∈ (resolveHydration cfg (hydrate cfg w).2).trace := by
  rcases hb with hb | hb
  · have hpost : (hydrate cfg w).2.pendingHydration = none := by
      simp [hydrate, hc, hb, hp]
    rw [resolveHydration_of_none cfg _ hpost]
    constructor
    · simp [hydrate, hc, hb]
    · intro l hl
      simp [hydrate, hc, hb]
      exact Or.inr hl
  · have hpend : (hydrate cfg w).2.pendingHydration
        = some (PendingRead.withData d) := by
      simp [hydrate, hc, hb]
    have hstate : (hydrate cfg w).2.storeState = w.storeState := by
      simp [hydrate, hc, hb]
    have hext : (hydrate cfg w).2.extListeners = w.extListeners := by
      simp [hydrate, hc, hb]
    unfold resolveHydration
    rw [hpend]
    constructor
    · simp [hstate]
    · intro l hl
      simp [hstate, hext]
      exact Or.inr hl

theorem hydration_set_notifies_witness :
    Evt.storeSetEv wSyncNone.storeState
        ∈ (resolveHydration cfgW (hydrate cfgW wSyncNone).2).trace
    ∧ Evt.notifyEv 7 wSyncNone.storeState
        ∈ (resolveHydration cfgW (hydrate cfgW wSyncNone).2).trace := by
  have h := hydration_set_notifies cfgW wSyncNone none rfl rfl (Or.inl rfl)
  exact ⟨h.1, h.2 7 (by simp [wSyncNone])⟩

/-- The collected promises are exactly the promise-valued hydrate results,
in store order. -/
lemma hydrationPromises_eq (stores : List StoreEntry) :
    hydrationPromises stores = stores.filterMap (fun s => s.bind id) := by
  have key : ∀ (l : List StoreEntry) (acc : List Nat),
      l.foldl (fun acc s =>
        match s with
        | none => acc
        | some none => acc
        | some (some t) => acc ++ [t]) acc
        = acc ++ l.filterMap (fun s => s.bind id) := by
    intro l
    induction l with
    | nil => intro acc; simp
    | cons s rest ih =>
      intro acc
      match s with
      | none => simpa [List.filterMap_cons] using ih acc
      | some none => simpa [List.filterMap_cons] using ih acc
      | some (some t) => simpa [List.filterMap_cons] using ih (acc ++ [t])
  simpa using key stores []

lemma hydrationPromises_filter (stores : List StoreEntry) :
    hydrationPromises (stores.filter (fun s => s.isSome))
      = hydrationPromises stores := by
  rw [hydrationPromises_eq, hydrationPromises_eq]
  induction stores with
  | nil => rfl
  | cons s rest ih =>
    match s with
    | none => simpa [List.filter_cons, List.filterMap_cons] using ih
    | some none => simpa [List.filter_cons, List.filterMap_cons] using ih
    | some (some t) => simpa [List.filter_cons, List.filterMap_cons] using ih

lemma le_foldl_max (l : List Nat) : ∀ a : Nat, a ≤ l.foldl max a := by
  induction l with
  | nil => intro a; exact le_refl a
  | cons b rest ih =>
    intro a
    exact le_trans (le_max_left a b) (ih (max a b))

lemma mem_le_foldl_max (l : List Nat) : ∀ (a t : Nat), t ∈ l → t ≤ l.foldl max a := by
  induction l with
  | nil => intro a t ht; cases ht
  | cons b rest ih =>
    intro a t ht
    rcases List.mem_cons.mp ht with h | h
    · subst h
      exact le_trans (le_max_right a t) (le_foldl_max rest (max a t))
    · exact ih (max a b) t h

lemma foldl_max_attained (l : List Nat) :
    ∀ a : Nat, l.foldl max a = a ∨ l.foldl max a ∈ l := by
  induction l with
  | nil => intro a; exact Or.inl rfl
  | cons b rest ih =>
    intro a
    rcases ih (max a b) with h | h
    · rcases Nat.le_total b a with hba | hab
      · exact Or.inl (by rw [List.foldl_cons, h, Nat.max_eq_left hba])
      · refine Or.inr ?_
        rw [List.foldl_cons, h, Nat.max_eq_right hab]
        exact List.mem_cons_self b rest
    · exact Or.inr (List.mem_cons_of_mem b h)

/-- C6: the hydration coordinator ignores containers without a persist
handler (dropping them from the list does not change the result), returns
`undefined` exactly when every per-handler hydration result was
synchronous, and otherwise returns a single joined promise that resolves
no earlier than every individual hydration promise and exactly when the
last of them resolves. -/
theorem setupHydrator_skip_and_join (stores : List StoreEntry) :
    setupHydratorResult stores
      = setupHydratorResult (stores.filter (fun s => s.isSome))
    ∧ (setupHydratorResult stores = none
        ↔ ∀ s ∈ stores, ∀ r, s = some r → r = none)
    ∧ (∀ T, setupHydratorResult stores = some T →
        (∀ t, (some (some t) : StoreEntry) ∈ stores → t ≤ T)
        ∧ T ∈ hydrationPromises stores) := by
  refine ⟨?_, ?_, ?_⟩
  · unfold setupHydratorResult
    rw [hydrationPromises_filter]
  · unfold setupHydratorResult
    constructor
    · intro h s hs r hr
      subst hr
      by_cases hemp : (hydrationPromises stores).isEmpty
      · have hnil : hydrationPromises stores = [] := by
          simpa [List.isEmpty_iff] using hemp
        rw [hydrationPromises_eq] at hnil
        have := (List.filterMap_eq_nil.mp hnil) (some r) hs
        match r, this with
        | none, _ => rfl
        | some t, h2 => simp at h2
      · simp [hemp] at h
    · intro h
      have hnil : hydrationPromises stores = [] := by
        rw [hydrationPromises_eq]
        apply List.filterMap_eq_nil.mpr
        intro s hs
        match s with
        | none => rfl
        | some r => rw [h (some r) hs r rfl]; rfl
      simp [hnil]
  · intro T hT
    unfold setupHydratorResult at hT
    by_cases hemp : (hydrationPromises stores).isEmpty
    · simp [hemp] at hT
    · have hTval : T = promiseAllAt (hydrationPromises stores) := by
        simp [hemp] at hT
        exact hT.symm
      constructor
      · intro t ht
        have htm : t ∈ hydrationPromises stores := by
          rw [hydrationPromises_eq]
          exact List.mem_filterMap.mpr ⟨some (some t), ht, rfl⟩
        rw [hTval]
        exact mem_le_foldl_max _ 0 t htm
      · have hne : hydrationPromises stores ≠ [] := by
          simpa [List.isEmpty_iff] using hemp
        rcases foldl_max_attained (hydrationPromises stores) 0 with h | h
        · match hps : hydrationPromises stores, hne with
          | p :: rest, _ =>
            have hple : p ≤ (hydrationPromises stores).foldl max 0 := by
              rw [hps]
              exact mem_le_foldl_max _ 0 p (List.mem_cons_self p rest)
            rw [hps] at h
            rw [hTval]
            unfold promiseAllAt
            rw [hps] at hple ⊢
            have : p = 0 := Nat.le_antisymm (le_of_le_of_eq hple h) (Nat.zero_le p)
            rw [h, ← this]
            exact List.mem_cons_self p rest
        · rw [hTval]
          exact h

/-- The store list used by the coordinator witness: one container without
a handler, one synchronous hydration, and promises resolving at steps 3
and 7. -/
def storesW : List StoreEntry := [none, some none, some (some 3), some (some 7)]

theorem setupHydrator_skip_and_join_witness :
    setupHydratorResult storesW
      = setupHydratorResult (storesW.filter (fun s => s.isSome))
    ∧ (∀ t, (some (some t) : StoreEntry) ∈ storesW → t ≤ 7)
    ∧ 7 ∈ hydrationPromises storesW := by
  have h := setupHydrator_skip_and_join storesW
  have h7 : setupHydratorResult storesW = some 7 := rfl
  exact ⟨h.1, (h.2.2 7 h7).1, (h.2.2 7 h7).2⟩

/-- A snapshot never reopens a closed promise cache slot. -/
lemma getSnapshot_keeps_cache (hr : Option Nat) (g : GateState) (x : Option Nat)
    (h : g.promiseRef = some x) : (getSnapshot hr g).2.promiseRef = some x := by
  unfold getSnapshot
  rw [h]
  exact h

/-- While the cached handle is a promise and no settle has fired, a
snapshot leaves the gate closed. -/
lemma snapshot_keeps_closed (p : Nat) (g : GateState)
    (h : g.isHydrated = false) :
    (gateStep (some p) g GEvent.snapshot).isHydrated = false := by
  unfold gateStep getSnapshot
  cases hpr : g.promiseRef <;> simp [h]

/-- C7: a gate whose cached hydration result is not a promise is open on
its very first snapshot (so the placeholder is never rendered); with a
promise result the gate stays closed under any number of snapshots until
a settle event, and the settle opens it; `isHydrated` is monotone — once
true it stays true under every event — so it transitions false to true at
most once and never back; and the cached handle is written at most
once. -/
theorem hydrator_gate_once :
    (getSnapshot none initialGate).1 = true
    ∧ (∀ hr g x, g.promiseRef = some x → (getSnapshot hr g).2.promiseRef = some x)
    ∧ (∀ hr g, g.isHydrated = true → (getSnapshot hr g).1 = true)
    ∧ (∀ p n, (runGate (some p) initialGate
        (List.replicate n GEvent.snapshot)).isHydrated = false)
    ∧ (∀ p g, g.isHydrated = false → (getSnapshot (some p) g).1 = false)
    ∧ (∀ hr g, (gateStep hr g GEvent.settle).isHydrated = true)
    ∧ (∀ hr g e, g.isHydrated = true → (gateStep hr g e).isHydrated = true) := by
  refine ⟨rfl, ?_, ?_, ?_, ?_, ?_, ?_⟩
  · exact getSnapshot_keeps_cache
  · intro hr g h
    unfold getSnapshot
    cases hpr : g.promiseRef <;> simp [h]
  · intro p n
    have key : ∀ (n : Nat) (g : GateState), g.isHydrated = false →
        (runGate (some p) g (List.replicate n GEvent.snapshot)).isHydrated = false := by
      intro n
      induction n with
      | zero => intro g h; exact h
      | succ m ih =>
        intro g h
        rw [List.replicate_succ]
        exact ih _ (snapshot_keeps_closed p g h)
    exact key n initialGate rfl
  · intro p g h
    unfold getSnapshot
    cases hpr : g.promiseRef <;> simp [h]
  · intro hr g; rfl
  · intro hr g e h
    cases e with
    | settle => rfl
    | snapshot =>
      show (getSnapshot hr g).2.isHydrated = true
      unfold getSnapshot
      cases hpr : g.promiseRef <;> simp [h]

theorem hydrator_gate_once_witness :
    (getSnapshot none initialGate).1 = true
    ∧ (runGate (some 0) initialGate
        (List.replicate 2 GEvent.snapshot)).isHydrated = false
    ∧ (gateStep (some 0) ⟨some (some 0), true⟩ GEvent.snapshot).isHydrated = true := by
  have h := hydrator_gate_once
  exact ⟨h.1, h.2.2.2.1 0 2,
    h.2.2.2.2.2.2 (some 0) ⟨some (some 0), true⟩ GEvent.snapshot rfl⟩

/-- C9 (counterexample to the claim as stated): on a fully synchronous
backend the adapter's `removeItem` does not preserve the backend's shape —
the backend's remove is synchronous, yet the adapter returns a promise,
because `removeItem` is declared `async`. -/
def bSyncBackend : RawBackend :=
  ⟨fun _ => JSRes.sync none, fun _ => JSRes.sync ()⟩

theorem removeItem_shape_counterexample :
    isPromise (bSyncBackend.removeItemRaw "k") = false
    ∧ isPromise (cjsRemoveItem bSyncBackend "k") = true :=
  ⟨rfl, rfl⟩

/-- C9 (amended): `getItem` never forces an asynchronous return — on a
synchronous backend it returns a non-promise result end-to-end, and on an
asynchronous backend a promise resolving to exactly the value the
synchronous path would have produced from the same raw string.
`removeItem`, however, is an `async` function: it always returns a
promise, even over a synchronous backend, so only its awaiting of an
asynchronous backend — not the synchronous shape — is passed through. -/
theorem adapter_shape (parse : String → Option JVal) (b : RawBackend)
    (key : String) :
    (∀ s, b.getItemRaw key = JSRes.sync s →
      cjsGetItem parse b key = JSRes.sync (parseJSON parse s)
      ∧ isPromise (cjsGetItem parse b key) = false)
    ∧ (∀ s, b.getItemRaw key = JSRes.promise s →
      cjsGetItem parse b key = JSRes.promise (parseJSON parse s))
    ∧ isPromise (cjsRemoveItem b key) = true := by
  refine ⟨?_, ?_, rfl⟩
  · intro s hs
    unfold cjsGetItem
    rw [hs]
    exact ⟨rfl, rfl⟩
  · intro s hs
    unfold cjsGetItem
    rw [hs]

theorem adapter_shape_witness :
    cjsGetItem parseNone bBadJSON "k"
      = JSRes.sync (parseJSON parseNone (some "not json"))
    ∧ isPromise (cjsRemoveItem bBadJSON "k") = true := by
  have h := adapter_shape parseNone bBadJSON "k"
  exact ⟨(h.1 (some "not json") rfl).1, h.2.2⟩
